import Mathlib

/-!
Shallow embedding of `bvault_js_rs/src/lib.rs`, the synchronous password-based
decryption pipeline `decrypt_sync`.  Bytes are modelled as `Nat` values below 256,
Rust `&str`/`String` as Lean `String`, and fallible operations as `Option`/`Except`.

The pipeline is `base64-decode (ciphertext, iv, salt) → PBKDF2-HMAC-SHA256 key
derivation (100000 iterations, 32 bytes) → AES-256-CBC decryption in place →
PKCS#7 padding check → UTF-8 validation`.  The single-block AES-256 decryption
function (the `aes` crate primitive) is kept as an explicit parameter
`blockDec : List Nat → List Nat → List Nat` (key → ciphertext block → plaintext
block); every other stage — the base64 codec of
`base64::engine::general_purpose::STANDARD`, the CBC chaining of `cbc::Decryptor`,
the PKCS#7 validation of `block_padding::Pkcs7`, PBKDF2/HMAC/SHA-256 and UTF-8
validation — is defined concretely below.
-/

/-- Error kinds of the pipeline.  The Rust function returns `JsValue` strings;
the five distinct messages are modelled as a closed enum, following the order in
which they appear in `decrypt_sync`: "invalid base64", "IV must be 16 bytes",
"invalid key/iv length", "decryption / padding error", "invalid utf-8". -/
inductive DecryptError where
  | invalidEncoding
  | invalidIVLength
  | invalidKeyLength
  | decryptionError
  | invalidUTF8
deriving DecidableEq

/-- Decidable equality for `Except`, needed to evaluate pipeline results. -/
def exceptDecEq {ε α : Type} [DecidableEq ε] [DecidableEq α] :
    (x y : Except ε α) → Decidable (x = y)
  | .error e₁, .error e₂ =>
    if h : e₁ = e₂ then .isTrue (congrArg Except.error h)
    else .isFalse (fun hc => h (Except.error.inj hc))
  | .ok a₁, .ok a₂ =>
    if h : a₁ = a₂ then .isTrue (congrArg Except.ok h)
    else .isFalse (fun hc => h (Except.ok.inj hc))
  | .error _, .ok _ => .isFalse (fun hc => Except.noConfusion hc)
  | .ok _, .error _ => .isFalse (fun hc => Except.noConfusion hc)

instance {ε α : Type} [DecidableEq ε] [DecidableEq α] : DecidableEq (Except ε α) :=
  exceptDecEq

/-! ## Base64 (standard alphabet, canonical padding required)

Model of `base64::engine::general_purpose::STANDARD` decoding: the standard
alphabet, input length a multiple of 4, `=` padding only at the end, and the
unused trailing bits of the final symbol required to be zero. -/

/-- Index of a character in the standard base64 alphabet, `none` for characters
outside it (including `=`). -/
def b64Index (c : Char) : Option Nat :=
  if 65 ≤ c.toNat ∧ c.toNat ≤ 90 then some (c.toNat - 65)
  else if 97 ≤ c.toNat ∧ c.toNat ≤ 122 then some (c.toNat - 97 + 26)
  else if 48 ≤ c.toNat ∧ c.toNat ≤ 57 then some (c.toNat - 48 + 52)
  else if c = '+' then some 62
  else if c = '/' then some 63
  else none

/-- Base64 decoding by groups of four symbols; the final group may end in one or
two `=` padding characters, whose unused bits must be zero (the crate's
`decode_allow_trailing_bits = false`, `DecodePaddingMode::RequireCanonical`). -/
def b64decodeGroups : List Char → Option (List Nat)
  | [] => some []
  | c1 :: c2 :: c3 :: c4 :: rest =>
    match b64Index c1, b64Index c2 with
    | some i1, some i2 =>
      if c3 = '=' then
        if c4 = '=' ∧ rest = [] ∧ i2 % 16 = 0 then some [i1 * 4 + i2 / 16] else none
      else
        match b64Index c3 with
        | some i3 =>
          if c4 = '=' then
            if rest = [] ∧ i3 % 4 = 0 then
              some [i1 * 4 + i2 / 16, i2 % 16 * 16 + i3 / 4]
            else none
          else
            match b64Index c4 with
            | some i4 =>
              match b64decodeGroups rest with
              | some bs => some ([i1 * 4 + i2 / 16, i2 % 16 * 16 + i3 / 4, i3 % 4 * 64 + i4] ++ bs)
              | none => none
            | none => none
        | none => none
    | _, _ => none
  | _ => none

/-- Mirror of the local helper `b64_to_bytes` in `decrypt_sync`: decode a base64
string, `none` standing for the "invalid base64" error. -/
def b64_to_bytes (s : String) : Option (List Nat) :=
  b64decodeGroups s.data

/-! ## UTF-8 -/

/-- UTF-8 encoding of a single unicode scalar value (1 to 4 bytes). -/
def utf8EncodeChar (c : Char) : List Nat :=
  if c.toNat < 128 then [c.toNat]
  else if c.toNat < 2048 then [192 + c.toNat / 64, 128 + c.toNat % 64]
  else if c.toNat < 65536 then
    [224 + c.toNat / 4096, 128 + c.toNat / 64 % 64, 128 + c.toNat % 64]
  else
    [240 + c.toNat / 262144, 128 + c.toNat / 4096 % 64, 128 + c.toNat / 64 % 64,
      128 + c.toNat % 64]

/-- UTF-8 encoding of a character sequence; models Rust's `str::as_bytes`. -/
def utf8Encode : List Char → List Nat
  | [] => []
  | c :: cs => utf8EncodeChar c ++ utf8Encode cs

/-- Decode one UTF-8 encoded scalar value from the front of a byte sequence,
with full validation of the leading byte, the continuation-byte ranges, the
shortest-form requirement, the surrogate exclusion and the U+10FFFF maximum
(the checks of Rust's UTF-8 validation).  Returns the character and the
remaining bytes, or `none` on malformed input. -/
def utf8Step : List Nat → Option (Char × List Nat)
  | [] => none
  | b0 :: bs =>
    if b0 < 128 then some (Char.ofNat b0, bs)
    else if 194 ≤ b0 ∧ b0 < 224 then
      match bs with
      | b1 :: bs1 =>
        if 128 ≤ b1 ∧ b1 < 192 then
          some (Char.ofNat ((b0 - 192) * 64 + (b1 - 128)), bs1)
        else none
      | [] => none
    else if 224 ≤ b0 ∧ b0 < 240 then
      match bs with
      | b1 :: b2 :: bs2 =>
        if 128 ≤ b1 ∧ b1 < 192 ∧ (b0 = 224 → 160 ≤ b1) ∧ (b0 = 237 → b1 < 160) ∧
            128 ≤ b2 ∧ b2 < 192 then
          some (Char.ofNat ((b0 - 224) * 4096 + (b1 - 128) * 64 + (b2 - 128)), bs2)
        else none
      | _ => none
    else if 240 ≤ b0 ∧ b0 < 245 then
      match bs with
      | b1 :: b2 :: b3 :: bs3 =>
        if 128 ≤ b1 ∧ b1 < 192 ∧ (b0 = 240 → 144 ≤ b1) ∧ (b0 = 244 → b1 < 144) ∧
            128 ≤ b2 ∧ b2 < 192 ∧ 128 ≤ b3 ∧ b3 < 192 then
          some (Char.ofNat
            ((b0 - 240) * 262144 + (b1 - 128) * 4096 + (b2 - 128) * 64 + (b3 - 128)), bs3)
        else none
      | _ => none
    else none

/-- Iterate `utf8Step` over the whole byte sequence.  Each step consumes at
least one byte, so a fuel of the input length is always sufficient. -/
def utf8DecodeAux : Nat → List Nat → Option (List Char)
  | _, [] => some []
  | 0, _ :: _ => none
  | fuel + 1, b0 :: bs =>
    (utf8Step (b0 :: bs)).bind fun cr => (utf8DecodeAux fuel cr.2).map fun cs => cr.1 :: cs

/-- Strict UTF-8 decoding with full validation; models Rust's
`String::from_utf8`, `none` standing for the `FromUtf8Error` case. -/
def utf8Decode (l : List Nat) : Option (List Char) :=
  utf8DecodeAux l.length l

/-! ## SHA-256, HMAC-SHA256, PBKDF2 (the `sha2` and `pbkdf2` crates) -/

/-- Addition modulo 2^32. -/
def wadd (a b : Nat) : Nat := (a + b) % 4294967296

/-- Right rotation of a 32-bit word by `n` positions. -/
def rotr32 (n x : Nat) : Nat := (x / 2 ^ n + x % 2 ^ n * 2 ^ (32 - n)) % 4294967296

/-- SHA-256 message-schedule function σ0. -/
def sha256SmallSigma0 (x : Nat) : Nat :=
  Nat.xor (Nat.xor (rotr32 7 x) (rotr32 18 x)) (x / 8)

/-- SHA-256 message-schedule function σ1. -/
def sha256SmallSigma1 (x : Nat) : Nat :=
  Nat.xor (Nat.xor (rotr32 17 x) (rotr32 19 x)) (x / 1024)

/-- SHA-256 round function Σ0. -/
def sha256BigSigma0 (x : Nat) : Nat :=
  Nat.xor (Nat.xor (rotr32 2 x) (rotr32 13 x)) (rotr32 22 x)

/-- SHA-256 round function Σ1. -/
def sha256BigSigma1 (x : Nat) : Nat :=
  Nat.xor (Nat.xor (rotr32 6 x) (rotr32 11 x)) (rotr32 25 x)

/-- SHA-256 choice function. -/
def sha256Ch (x y z : Nat) : Nat :=
  Nat.xor (Nat.land x y) (Nat.land (Nat.xor x 4294967295) z)

/-- SHA-256 majority function. -/
def sha256Maj (x y z : Nat) : Nat :=
  Nat.xor (Nat.xor (Nat.land x y) (Nat.land x z)) (Nat.land y z)

/-- The 64 SHA-256 round constants. -/
def sha256K : List Nat :=
  [1116352408, 1899447441, 3049323471, 3921009573, 961987163, 1508970993, 2453635748, 2870763221,
   3624381080, 310598401, 607225278, 1426881987, 1925078388, 2162078206, 2614888103, 3248222580,
   3835390401, 4022224774, 264347078, 604807628, 770255983, 1249150122, 1555081692, 1996064986,
   2554220882, 2821834349, 2952996808, 3210313671, 3336571891, 3584528711, 113926993, 338241895,
   666307205, 773529912, 1294757372, 1396182291, 1695183700, 1986661051, 2177026350, 2456956037,
   2730485921, 2820302411, 3259730800, 3345764771, 3516065817, 3600352804, 4094571909, 275423344,
   430227734, 506948616, 659060556, 883997877, 958139571, 1322822218, 1537002063, 1747873779,
   1955562222, 2024104815, 2227730452, 2361852424, 2428436474, 2756734187, 3204031479, 3329325298]

/-- State of the SHA-256 compression function: eight 32-bit working words. -/
structure Sha256State where
  a : Nat
  b : Nat
  c : Nat
  d : Nat
  e : Nat
  f : Nat
  g : Nat
  h : Nat

/-- Big-endian 32-bit word from four bytes. -/
def wordsOfBytes : List Nat → List Nat
  | a :: b :: c :: d :: rest => (a * 16777216 + b * 65536 + c * 256 + d) :: wordsOfBytes rest
  | _ => []

/-- Extend the 16 words of a chunk to the 64-entry message schedule. -/
def sha256Extend (ws : List Nat) : List Nat :=
  (List.range 48).foldl
    (fun acc _ =>
      let n := acc.length
      let x := wadd (wadd (sha256SmallSigma1 (acc.getD (n - 2) 0)) (acc.getD (n - 7) 0))
        (wadd (sha256SmallSigma0 (acc.getD (n - 15) 0)) (acc.getD (n - 16) 0))
      acc ++ [x])
    ws

/-- One SHA-256 round; `wk` is the pair (schedule word, round constant). -/
def sha256Round (s : Sha256State) (wk : Nat × Nat) : Sha256State :=
  let t1 := wadd (wadd (wadd (wadd s.h (sha256BigSigma1 s.e)) (sha256Ch s.e s.f s.g)) wk.2) wk.1
  let t2 := wadd (sha256BigSigma0 s.a) (sha256Maj s.a s.b s.c)
  ⟨wadd t1 t2, s.a, s.b, s.c, wadd s.d t1, s.e, s.f, s.g⟩

/-- Process one 64-byte chunk. -/
def sha256Compress (s : Sha256State) (chunk : List Nat) : Sha256State :=
  let ws := sha256Extend (wordsOfBytes chunk)
  let t := (ws.zip sha256K).foldl sha256Round s
  ⟨wadd s.a t.a, wadd s.b t.b, wadd s.c t.c, wadd s.d t.d,
   wadd s.e t.e, wadd s.f t.f, wadd s.g t.g, wadd s.h t.h⟩

/-- Big-endian 4-byte encoding of a 32-bit value. -/
def be32 (n : Nat) : List Nat := [n / 16777216 % 256, n / 65536 % 256, n / 256 % 256, n % 256]

/-- Big-endian 8-byte encoding of a 64-bit value. -/
def be64 (n : Nat) : List Nat :=
  [n / 72057594037927936 % 256, n / 281474976710656 % 256, n / 1099511627776 % 256,
   n / 4294967296 % 256, n / 16777216 % 256, n / 65536 % 256, n / 256 % 256, n % 256]

/-- Split a byte list into chunks of `k` bytes, driven by a fuel argument. -/
def chunksBy (k : Nat) : Nat → List Nat → List (List Nat)
  | 0, _ => []
  | _, [] => []
  | fuel + 1, l => l.take k :: chunksBy k fuel (l.drop k)

/-- Split a byte list into 64-byte chunks. -/
def chunks64 (l : List Nat) : List (List Nat) := chunksBy 64 l.length l

/-- SHA-256 message padding: `128`, zeros to 56 mod 64, 64-bit bit length. -/
def sha256Pad (msg : List Nat) : List Nat :=
  msg ++ [128] ++ List.replicate ((119 - msg.length % 64) % 64) 0 ++ be64 (msg.length * 8)

/-- Initial SHA-256 hash state. -/
def sha256Init : Sha256State :=
  ⟨1779033703, 3144134277, 1013904242, 2773480762, 1359893119, 2600822924, 528734635, 1541459225⟩

/-- SHA-256 of a byte sequence, as 32 bytes. -/
def sha256 (msg : List Nat) : List Nat :=
  let s := (chunks64 (sha256Pad msg)).foldl sha256Compress sha256Init
  be32 s.a ++ be32 s.b ++ be32 s.c ++ be32 s.d ++ be32 s.e ++ be32 s.f ++ be32 s.g ++ be32 s.h

/-- HMAC-SHA256 with 64-byte block size. -/
def hmacSha256 (key msg : List Nat) : List Nat :=
  let k0 := if 64 < key.length then sha256 key else key
  let kp := k0 ++ List.replicate (64 - k0.length) 0
  sha256 (kp.map (fun b => Nat.xor b 92) ++ sha256 (kp.map (fun b => Nat.xor b 54) ++ msg))

/-- Iterate the PBKDF2 inner loop: given the remaining iteration count, the last
`U` value and the xor-accumulator, produce the block value. -/
def pbkdf2Iter (password : List Nat) : Nat → List Nat → List Nat → List Nat
  | 0, _, acc => acc
  | j + 1, u, acc =>
    let u2 := hmacSha256 password u
    pbkdf2Iter password j u2 (List.zipWith Nat.xor acc u2)

/-- PBKDF2 block `T_i = U_1 xor ... xor U_c` with `U_1 = PRF(password, salt ∥ BE32(i))`. -/
def pbkdf2Block (password salt : List Nat) (c i : Nat) : List Nat :=
  let u1 := hmacSha256 password (salt ++ be32 i)
  pbkdf2Iter password (c - 1) u1 u1

/-- PBKDF2 with HMAC-SHA256 as pseudorandom function; models
`pbkdf2::pbkdf2_hmac_array::<Sha256, 32>` when `dkLen = 32`. -/
def pbkdf2HmacSha256 (password salt : List Nat) (c dkLen : Nat) : List Nat :=
  (((List.range ((dkLen + 31) / 32)).map
      (fun i => pbkdf2Block password salt c (i + 1))).flatten).take dkLen

/-! ## AES-256-CBC decryption and PKCS#7 -/

/-- CBC-mode decryption: each 16-byte ciphertext block is decrypted with the
block cipher and xored with the previous ciphertext block (the IV for the first
block).  A trailing fragment shorter than 16 bytes is unreachable in the
pipeline, which checks the buffer length first; it is mapped to `[]`. -/
def cbcDecryptGo (blockDec : List Nat → List Nat → List Nat) (key : List Nat) :
    List Nat → List Nat → List Nat
  | prev, b0 :: b1 :: b2 :: b3 :: b4 :: b5 :: b6 :: b7 ::
      b8 :: b9 :: b10 :: b11 :: b12 :: b13 :: b14 :: b15 :: rest =>
    let blk := [b0, b1, b2, b3, b4, b5, b6, b7, b8, b9, b10, b11, b12, b13, b14, b15]
    List.zipWith Nat.xor (blockDec key blk) prev ++ cbcDecryptGo blockDec key blk rest
  | _, _ => []

/-- CBC decryption of a whole buffer; models `cbc::Decryptor` block processing. -/
def cbcDecrypt (blockDec : List Nat → List Nat → List Nat) (key iv ct : List Nat) : List Nat :=
  cbcDecryptGo blockDec key iv ct

/-- PKCS#7 unpadding as performed by `block_padding::Pkcs7`: the last byte `n`
must satisfy `1 ≤ n ≤ 16` and the last `n` bytes must all equal `n`; those `n`
bytes are removed.  `none` models `UnpadError`. -/
def pkcs7Unpad (l : List Nat) : Option (List Nat) :=
  match l.getLast? with
  | none => none
  | some n =>
    if 1 ≤ n ∧ n ≤ 16 ∧ n ≤ l.length ∧ (l.drop (l.length - n)).all (fun b => b == n) then
      some (l.take (l.length - n))
    else none

/-! ## The pipeline -/

/-- The decryption pipeline of `decrypt_sync`, parametric in the single-block
AES-256 decryption function `blockDec` and in the key-derivation function `kdf`
(which `decrypt_sync` instantiates with PBKDF2-HMAC-SHA256 at 100000 iterations
and 32 output bytes).  Mirrors the source line by line: decode the three base64
inputs in argument order; require a 16-byte IV; derive the key; the cipher
constructor `new_from_slices` requires a 32-byte key and 16-byte IV;
`decrypt_padded_mut::<Pkcs7>` requires the buffer length to be a multiple of 16,
decrypts in place and validates the padding — but the source then discards the
unpadded slice it returns and converts the whole decrypted buffer with
`String::from_utf8`. -/
def decryptSyncWith (blockDec : List Nat → List Nat → List Nat)
    (kdf : List Nat → List Nat → List Nat)
    (b64_ciphertext password b64_iv b64_salt : String) : Except DecryptError String :=
  match b64_to_bytes b64_ciphertext with
  | none => .error .invalidEncoding
  | some ciphertext =>
    match b64_to_bytes b64_iv with
    | none => .error .invalidEncoding
    | some iv =>
      match b64_to_bytes b64_salt with
      | none => .error .invalidEncoding
      | some salt =>
        if iv.length = 16 then
          let key := kdf (utf8Encode password.data) salt
          if key.length = 32 ∧ iv.length = 16 then
            if ciphertext.length % 16 = 0 then
              let buf := cbcDecrypt blockDec key iv ciphertext
              match pkcs7Unpad buf with
              | none => .error .decryptionError
              | some _ =>
                match utf8Decode buf with
                | none => .error .invalidUTF8
                | some cs => .ok (String.mk cs)
            else .error .decryptionError
          else .error .invalidKeyLength
        else .error .invalidIVLength

/-- The exported `decrypt_sync`, parametric only in the AES-256 block primitive:
the key-derivation function is PBKDF2-HMAC-SHA256 with 100000 iterations and 32
output bytes applied to the password's UTF-8 bytes and the decoded salt. -/
def decrypt_sync (blockDec : List Nat → List Nat → List Nat)
    (b64_ciphertext password b64_iv b64_salt : String) : Except DecryptError String :=
  decryptSyncWith blockDec (fun pw salt => pbkdf2HmacSha256 pw salt 100000 32)
    b64_ciphertext password b64_iv b64_salt

/-! ## Supporting lemmas -/

theorem charToNat_ofNat {n : Nat} (h : n.isValidChar) : (Char.ofNat n).toNat = n := by
  unfold Char.ofNat
  rw [dif_pos h]
  rfl

theorem utf8EncodeChar_one {b0 : Nat} (h : b0 < 128) :
    utf8EncodeChar (Char.ofNat b0) = [b0] := by
  have hv : Nat.isValidChar b0 := by unfold Nat.isValidChar; omega
  unfold utf8EncodeChar
  rw [charToNat_ofNat hv]
  rw [if_pos h]

theorem utf8EncodeChar_two {b0 b1 : Nat} (h0 : 194 ≤ b0 ∧ b0 < 224) (h1 : 128 ≤ b1 ∧ b1 < 192) :
    utf8EncodeChar (Char.ofNat ((b0 - 192) * 64 + (b1 - 128))) = [b0, b1] := by
  have hv : Nat.isValidChar ((b0 - 192) * 64 + (b1 - 128)) := by
    unfold Nat.isValidChar; omega
  unfold utf8EncodeChar
  rw [charToNat_ofNat hv]
  rw [if_neg (by omega), if_pos (by omega)]
  simp only [List.cons.injEq, and_true]
  omega

theorem utf8EncodeChar_three {b0 b1 b2 : Nat} (h0 : 224 ≤ b0 ∧ b0 < 240)
    (hc : 128 ≤ b1 ∧ b1 < 192 ∧ (b0 = 224 → 160 ≤ b1) ∧ (b0 = 237 → b1 < 160) ∧
      128 ≤ b2 ∧ b2 < 192) :
    utf8EncodeChar (Char.ofNat ((b0 - 224) * 4096 + (b1 - 128) * 64 + (b2 - 128)))
      = [b0, b1, b2] := by
  obtain ⟨h1, h2, h3, h4, h5, h6⟩ := hc
  have hv : Nat.isValidChar ((b0 - 224) * 4096 + (b1 - 128) * 64 + (b2 - 128)) := by
    unfold Nat.isValidChar; omega
  unfold utf8EncodeChar
  rw [charToNat_ofNat hv]
  rw [if_neg (by omega), if_neg (by omega), if_pos (by omega)]
  simp only [List.cons.injEq, and_true]
  refine ⟨by omega, by omega, by omega⟩

theorem utf8EncodeChar_four {b0 b1 b2 b3 : Nat} (h0 : 240 ≤ b0 ∧ b0 < 245)
    (hc : 128 ≤ b1 ∧ b1 < 192 ∧ (b0 = 240 → 144 ≤ b1) ∧ (b0 = 244 → b1 < 144) ∧
      128 ≤ b2 ∧ b2 < 192 ∧ 128 ≤ b3 ∧ b3 < 192) :
    utf8EncodeChar
      (Char.ofNat ((b0 - 240) * 262144 + (b1 - 128) * 4096 + (b2 - 128) * 64 + (b3 - 128)))
      = [b0, b1, b2, b3] := by
  obtain ⟨h1, h2, h3, h4, h5, h6, h7, h8⟩ := hc
  have hv : Nat.isValidChar
      ((b0 - 240) * 262144 + (b1 - 128) * 4096 + (b2 - 128) * 64 + (b3 - 128)) := by
    unfold Nat.isValidChar; omega
  unfold utf8EncodeChar
  rw [charToNat_ofNat hv]
  rw [if_neg (by omega), if_neg (by omega), if_neg (by omega)]
  simp only [List.cons.injEq, and_true]
  refine ⟨by omega, by omega, by omega, by omega⟩

set_option maxRecDepth 8192 in
theorem utf8Step_sound (l : List Nat) (c : Char) (rest : List Nat)
    (h : utf8Step l = some (c, rest)) : utf8EncodeChar c ++ rest = l := by
  unfold utf8Step at h
  split at h
  · exact absurd h (by simp)
  · split at h
    · -- 1-byte
      injection h with h'
      injection h' with hc hr
      subst hc; subst hr
      rw [utf8EncodeChar_one (by assumption)]
      rfl
    · split at h
      · -- 2-byte leading
        split at h
        · split at h
          · injection h with h'
            injection h' with hc hr
            subst hc; subst hr
            rw [utf8EncodeChar_two (by assumption) (by assumption)]
            rfl
          · exact absurd h (by simp)
        · exact absurd h (by simp)
      · split at h
        · -- 3-byte leading
          split at h
          · split at h
            · injection h with h'
              injection h' with hc hr
              subst hc; subst hr
              rw [utf8EncodeChar_three (by assumption) (by assumption)]
              rfl
            · exact absurd h (by simp)
          · exact absurd h (by simp)
        · split at h
          · -- 4-byte leading
            split at h
            · split at h
              · injection h with h'
                injection h' with hc hr
                subst hc; subst hr
                rw [utf8EncodeChar_four (by assumption) (by assumption)]
                rfl
              · exact absurd h (by simp)
            · exact absurd h (by simp)
          · exact absurd h (by simp)

theorem utf8DecodeAux_sound : ∀ (fuel : Nat) (l : List Nat) (cs : List Char),
    utf8DecodeAux fuel l = some cs → utf8Encode cs = l := by
  intro fuel
  induction fuel with
  | zero =>
    intro l cs h
    match l with
    | [] =>
      have h' : (some [] : Option (List Char)) = some cs := h
      cases h'
      rfl
    | _ :: _ =>
      have h' : (none : Option (List Char)) = some cs := h
      exact Option.noConfusion h'
  | succ n ih =>
    intro l cs h
    match l with
    | [] =>
      have h' : (some [] : Option (List Char)) = some cs := h
      cases h'
      rfl
    | b0 :: bs =>
      replace h : (utf8Step (b0 :: bs)).bind
          (fun cr => (utf8DecodeAux n cr.2).map fun cs => cr.1 :: cs) = some cs := h
      cases hstep : utf8Step (b0 :: bs) with
      | none => rw [hstep] at h; exact absurd h (by simp)
      | some cr =>
        rw [hstep] at h
        replace h : (utf8DecodeAux n cr.2).map (fun cs => cr.1 :: cs) = some cs := h
        cases hrec : utf8DecodeAux n cr.2 with
        | none => rw [hrec] at h; exact absurd h (by simp)
        | some cs' =>
          rw [hrec] at h
          replace h : some (cr.1 :: cs') = some cs := h
          cases h
          simp only [utf8Encode]
          rw [ih cr.2 cs' hrec]
          exact utf8Step_sound (b0 :: bs) cr.1 cr.2 (by rw [hstep])

theorem utf8Decode_utf8Encode (l : List Nat) (cs : List Char)
    (h : utf8Decode l = some cs) : utf8Encode cs = l :=
  utf8DecodeAux_sound l.length l cs h

theorem sha256_length (m : List Nat) : (sha256 m).length = 32 := by
  simp [sha256, be32]

theorem hmacSha256_length (k m : List Nat) : (hmacSha256 k m).length = 32 := by
  unfold hmacSha256
  exact sha256_length _

theorem pbkdf2Iter_length (pw : List Nat) :
    ∀ (j : Nat) (u acc : List Nat), acc.length = 32 → (pbkdf2Iter pw j u acc).length = 32 := by
  intro j
  induction j with
  | zero => intro u acc hacc; exact hacc
  | succ n ih =>
    intro u acc hacc
    have hstep : pbkdf2Iter pw (n + 1) u acc
        = pbkdf2Iter pw n (hmacSha256 pw u) (List.zipWith Nat.xor acc (hmacSha256 pw u)) := rfl
    rw [hstep]
    apply ih
    rw [List.length_zipWith, hacc, hmacSha256_length]
    decide

theorem pbkdf2Block_length (pw s : List Nat) (c i : Nat) :
    (pbkdf2Block pw s c i).length = 32 := by
  unfold pbkdf2Block
  exact pbkdf2Iter_length pw (c - 1) _ _ (hmacSha256_length _ _)

theorem pbkdf2HmacSha256_length (pw s : List Nat) (c : Nat) :
    (pbkdf2HmacSha256 pw s c 32).length = 32 := by
  unfold pbkdf2HmacSha256
  have h1 : List.range ((32 + 31) / 32) = [0] := by decide
  rw [h1]
  simp [pbkdf2Block_length]

theorem cbcDecryptGoAux_length (bd : List Nat → List Nat → List Nat) (key : List Nat)
    (hbd : ∀ k b, b.length = 16 → (bd k b).length = 16) :
    ∀ (n : Nat) (prev ct : List Nat), ct.length ≤ n → prev.length = 16 → ct.length % 16 = 0 →
      (cbcDecryptGo bd key prev ct).length = ct.length := by
  intro n
  induction n with
  | zero =>
    intro prev ct hle hprev hlen
    match ct with
    | [] => rfl
    | _ :: _ => exact absurd hle (by simp)
  | succ n ih =>
    intro prev ct hle hprev hlen
    match ct with
    | [] => rfl
    | [b0] => exact absurd hlen (by simp)
    | [b0, b1] => exact absurd hlen (by simp)
    | [b0, b1, b2] => exact absurd hlen (by simp)
    | [b0, b1, b2, b3] => exact absurd hlen (by simp)
    | [b0, b1, b2, b3, b4] => exact absurd hlen (by simp)
    | [b0, b1, b2, b3, b4, b5] => exact absurd hlen (by simp)
    | [b0, b1, b2, b3, b4, b5, b6] => exact absurd hlen (by simp)
    | [b0, b1, b2, b3, b4, b5, b6, b7] => exact absurd hlen (by simp)
    | [b0, b1, b2, b3, b4, b5, b6, b7, b8] => exact absurd hlen (by simp)
    | [b0, b1, b2, b3, b4, b5, b6, b7, b8, b9] => exact absurd hlen (by simp)
    | [b0, b1, b2, b3, b4, b5, b6, b7, b8, b9, b10] => exact absurd hlen (by simp)
    | [b0, b1, b2, b3, b4, b5, b6, b7, b8, b9, b10, b11] => exact absurd hlen (by simp)
    | [b0, b1, b2, b3, b4, b5, b6, b7, b8, b9, b10, b11, b12] => exact absurd hlen (by simp)
    | [b0, b1, b2, b3, b4, b5, b6, b7, b8, b9, b10, b11, b12, b13] => exact absurd hlen (by simp)
    | [b0, b1, b2, b3, b4, b5, b6, b7, b8, b9, b10, b11, b12, b13, b14] => exact absurd hlen (by simp)
    | b0 :: b1 :: b2 :: b3 :: b4 :: b5 :: b6 :: b7 :: b8 :: b9 :: b10 :: b11 :: b12 :: b13 :: b14 :: b15 :: rest =>
      have hstep : cbcDecryptGo bd key prev (b0 :: b1 :: b2 :: b3 :: b4 :: b5 :: b6 :: b7 :: b8 :: b9 :: b10 :: b11 :: b12 :: b13 :: b14 :: b15 :: rest)
          = List.zipWith Nat.xor (bd key [b0, b1, b2, b3, b4, b5, b6, b7, b8, b9, b10, b11, b12, b13, b14, b15]) prev
            ++ cbcDecryptGo bd key [b0, b1, b2, b3, b4, b5, b6, b7, b8, b9, b10, b11, b12, b13, b14, b15] rest := rfl
      rw [hstep, List.length_append, List.length_zipWith, hbd key _ (by simp), hprev]
      have hr : rest.length % 16 = 0 := by simp [List.length_cons] at hlen; omega
      have hrle : rest.length ≤ n := by simp [List.length_cons] at hle; omega
      rw [ih [b0, b1, b2, b3, b4, b5, b6, b7, b8, b9, b10, b11, b12, b13, b14, b15] rest hrle rfl hr]
      simp [List.length_cons]
      omega

theorem cbcDecrypt_length (bd : List Nat → List Nat → List Nat) (key iv ct : List Nat)
    (hbd : ∀ k b, b.length = 16 → (bd k b).length = 16)
    (hiv : iv.length = 16) (hct : ct.length % 16 = 0) :
    (cbcDecrypt bd key iv ct).length = ct.length :=
  cbcDecryptGoAux_length bd key hbd ct.length iv ct (Nat.le_refl _) hiv hct

theorem pkcs7Unpad_nil : pkcs7Unpad [] = none := rfl

theorem pkcs7Unpad_length_ne_zero (l : List Nat) (r : List Nat)
    (h : pkcs7Unpad l = some r) : l.length ≠ 0 := by
  intro hlen
  rw [List.length_eq_zero.mp hlen] at h
  rw [pkcs7Unpad_nil] at h
  exact Option.noConfusion h

/-! ## The encryption counterpart (modelled from the spec)

The repository ships only the decryption pipeline; the specification describes
the compatible encryption routine as an external collaborator.  The following
definitions model that counterpart for the round-trip statements. -/


/-- Modelled from the spec: PKCS#7 padding of the missing encryption
counterpart (§6 calls it an external collaborator) — append `n` bytes of value
`n` (1 to 16) so the length becomes a multiple of the 16-byte block size. -/
def pkcs7Pad (l : List Nat) : List Nat :=
  l ++ List.replicate (16 - l.length % 16) (16 - l.length % 16)

/-- Modelled from the spec: CBC-mode encryption of the missing encryption
counterpart — each plaintext block is xored with the previous ciphertext block
(the IV for the first) and then encrypted with the block cipher. -/
def cbcEncryptGo (blockEnc : List Nat → List Nat → List Nat) (key : List Nat) :
    List Nat → List Nat → List Nat
  | prev, b0 :: b1 :: b2 :: b3 :: b4 :: b5 :: b6 :: b7 ::
      b8 :: b9 :: b10 :: b11 :: b12 :: b13 :: b14 :: b15 :: rest =>
    let c := blockEnc key
      (List.zipWith Nat.xor [b0, b1, b2, b3, b4, b5, b6, b7, b8, b9, b10, b11, b12, b13, b14, b15]
        prev)
    c ++ cbcEncryptGo blockEnc key c rest
  | _, _ => []

/-- Modelled from the spec: CBC encryption of a whole padded buffer. -/
def cbcEncrypt (blockEnc : List Nat → List Nat → List Nat) (key iv pt : List Nat) : List Nat :=
  cbcEncryptGo blockEnc key iv pt

/-- Modelled from the spec: the character of the standard base64 alphabet at a
given index. -/
def b64Char (i : Nat) : Char :=
  if i < 26 then Char.ofNat (65 + i)
  else if i < 52 then Char.ofNat (97 + i - 26)
  else if i < 62 then Char.ofNat (48 + i - 52)
  else if i = 62 then '+' else '/'

/-- Modelled from the spec: standard base64 encoding with `=` padding, the
encoding the three inputs of `decrypt_sync` are expected to carry. -/
def b64encode : List Nat → List Char
  | [] => []
  | [x] => [b64Char (x / 4), b64Char (x % 4 * 16), '=', '=']
  | [x, y] => [b64Char (x / 4), b64Char (x % 4 * 16 + y / 16), b64Char (y % 16 * 4), '=']
  | x :: y :: z :: rest =>
    [b64Char (x / 4), b64Char (x % 4 * 16 + y / 16), b64Char (y % 16 * 4 + z / 64),
      b64Char (z % 64)] ++ b64encode rest


/-- Helper: CBC decryption of an empty buffer is empty. -/
theorem cbcDecrypt_nil (bd : List Nat → List Nat → List Nat) (k iv : List Nat) :
    cbcDecrypt bd k iv [] = [] := rfl

/-! ## The claims -/

/-- C1: the round-trip property fails on the code.  With the identity block
cipher (a valid encrypt/decrypt pair) and a 32-byte key function, encrypting
the PKCS#7-padded plaintext "A" in CBC mode with a zero IV and then calling the
pipeline on the base64 encodings returns Ok — but with the 15 padding bytes
15 still appended to "A", because the source discards the unpadded slice
returned by `decrypt_padded_mut` and converts the whole buffer. -/
theorem decryptSync_roundTrip_returns_padding :
    decryptSyncWith (fun _ b => b) (fun _ _ => List.replicate 32 0)
        (String.mk (b64encode (cbcEncrypt (fun _ b => b) (List.replicate 32 0)
          (List.replicate 16 0) (pkcs7Pad (utf8Encode "A".data)))))
        "pw" (String.mk (b64encode (List.replicate 16 0))) ""
      = .ok (String.mk ('A' :: List.replicate 15 (Char.ofNat 15))) ∧
    String.mk ('A' :: List.replicate 15 (Char.ofNat 15)) ≠ "A" := by
  constructor
  · decide
  · decide

/-- C2: the returned text is not the unpadded plaintext.  For a decrypted
buffer of sixteen 16 bytes (a full padding block), PKCS#7 unpadding succeeds
with the empty result, yet the pipeline returns the sixteen padding bytes as
characters: padding bytes do appear in the output. -/
theorem decryptSync_output_keeps_padding_bytes :
    b64_to_bytes "EBAQEBAQEBAQEBAQEBAQEA==" = some (List.replicate 16 16) ∧
    decryptSyncWith (fun _ b => b) (fun _ _ => List.replicate 32 0)
        "EBAQEBAQEBAQEBAQEBAQEA==" "pw" "AAAAAAAAAAAAAAAAAAAAAA==" ""
      = .ok (String.mk (List.replicate 16 (Char.ofNat 16))) ∧
    cbcDecrypt (fun _ b => b) (List.replicate 32 0) (List.replicate 16 0)
        (List.replicate 16 16) = List.replicate 16 16 ∧
    pkcs7Unpad (List.replicate 16 16) = some [] ∧
    (String.mk (List.replicate 16 (Char.ofNat 16))).data ≠ ([] : List Char) := by
  refine ⟨by decide, by decide, by decide, by decide, by decide⟩

/-- C3: on every successful call the UTF-8 byte length of the returned string
equals the byte length of the base64-decoded ciphertext (the whole decrypted
buffer, padding included, is converted), which is a nonzero multiple of 16.
Stated for any block cipher that maps 16-byte blocks to 16-byte blocks and any
key-derivation function. -/
theorem decryptSync_ok_length_eq_ciphertext_length (bd kdf : List Nat → List Nat → List Nat)
    (hbd : ∀ k b, b.length = 16 → (bd k b).length = 16)
    (ct pw iv salt : String) (s : String)
    (h : decryptSyncWith bd kdf ct pw iv salt = .ok s) :
    ∃ cb, b64_to_bytes ct = some cb ∧ (utf8Encode s.data).length = cb.length ∧
      cb.length ≠ 0 ∧ cb.length % 16 = 0 := by
  cases hct : b64_to_bytes ct with
  | none =>
    unfold decryptSyncWith at h
    rw [hct] at h
    exact absurd h (by simp)
  | some cb =>
    refine ⟨cb, rfl, ?_⟩
    cases hiv : b64_to_bytes iv with
    | none =>
      unfold decryptSyncWith at h
      simp only [hct, hiv] at h
      exact absurd h (by simp)
    | some ivb =>
      cases hsalt : b64_to_bytes salt with
      | none =>
        unfold decryptSyncWith at h
        simp only [hct, hiv, hsalt] at h
        exact absurd h (by simp)
      | some sb =>
        unfold decryptSyncWith at h
        simp only [hct, hiv, hsalt] at h
        by_cases hlen : ivb.length = 16
        · rw [if_pos hlen] at h
          by_cases hkey : (kdf (utf8Encode pw.data) sb).length = 32 ∧ ivb.length = 16
          · rw [if_pos hkey] at h
            by_cases halign : cb.length % 16 = 0
            · rw [if_pos halign] at h
              cases hunpad : pkcs7Unpad (cbcDecrypt bd (kdf (utf8Encode pw.data) sb) ivb cb) with
              | none => rw [hunpad] at h; exact absurd h (by simp)
              | some up =>
                rw [hunpad] at h
                cases hdec : utf8Decode (cbcDecrypt bd (kdf (utf8Encode pw.data) sb) ivb cb) with
                | none => rw [hdec] at h; exact absurd h (by simp)
                | some cs =>
                  rw [hdec] at h
                  have hs : s = String.mk cs := (Except.ok.inj h).symm
                  subst hs
                  have hdata : (String.mk cs).data = cs := rfl
                  rw [hdata]
                  have hbuf : utf8Encode cs
                      = cbcDecrypt bd (kdf (utf8Encode pw.data) sb) ivb cb :=
                    utf8Decode_utf8Encode _ cs hdec
                  rw [hbuf]
                  have hblen : (cbcDecrypt bd (kdf (utf8Encode pw.data) sb) ivb cb).length
                      = cb.length :=
                    cbcDecrypt_length bd _ ivb cb hbd hlen halign
                  rw [hblen]
                  refine ⟨rfl, ?_, halign⟩
                  have hne := pkcs7Unpad_length_ne_zero _ _ hunpad
                  rw [hblen] at hne
                  exact hne
            · rw [if_neg halign] at h
              exact absurd h (by simp)
          · rw [if_neg hkey] at h
            exact absurd h (by simp)
        · rw [if_neg hlen] at h
          exact absurd h (by simp)

/-- C4: the key-derivation stage, PBKDF2 with HMAC-SHA256 at 100000 iterations,
is a total function of the password and salt bytes that always produces exactly
32 bytes, and identical inputs yield the identical key. -/
theorem pbkdf2HmacSha256_deterministic_32_bytes (p s q t : List Nat)
    (hp : p = q) (hs : s = t) :
    (pbkdf2HmacSha256 p s 100000 32).length = 32 ∧
      pbkdf2HmacSha256 p s 100000 32 = pbkdf2HmacSha256 q t 100000 32 :=
  ⟨pbkdf2HmacSha256_length p s 100000, by rw [hp, hs]⟩

/-- C5: when all three base64 inputs decode and the IV is 16 bytes,
`decrypt_sync` returns the `decryptionError` kind exactly when the ciphertext
is empty, its length is not a multiple of 16, or the decrypted bytes fail the
PKCS#7 padding validation; in particular an empty ciphertext yields
`decryptionError`. -/
theorem decrypt_sync_decryptionError_iff (bd : List Nat → List Nat → List Nat)
    (ct pw iv salt : String) (cb ivb sb : List Nat)
    (hct : b64_to_bytes ct = some cb) (hiv : b64_to_bytes iv = some ivb)
    (hsalt : b64_to_bytes salt = some sb) (hivlen : ivb.length = 16) :
    decrypt_sync bd ct pw iv salt = .error .decryptionError ↔
      cb.length = 0 ∨ cb.length % 16 ≠ 0 ∨
        pkcs7Unpad (cbcDecrypt bd (pbkdf2HmacSha256 (utf8Encode pw.data) sb 100000 32) ivb cb)
          = none := by
  unfold decrypt_sync decryptSyncWith
  simp only [hct, hiv, hsalt]
  rw [if_pos hivlen, if_pos ⟨pbkdf2HmacSha256_length _ _ _, hivlen⟩]
  by_cases halign : cb.length % 16 = 0
  · rw [if_pos halign]
    cases hunpad : pkcs7Unpad (cbcDecrypt bd
        (pbkdf2HmacSha256 (utf8Encode pw.data) sb 100000 32) ivb cb) with
    | none =>
      constructor
      · intro _
        exact Or.inr (Or.inr rfl)
      · intro _
        rfl
    | some up =>
      constructor
      · intro hcontr
        cases hdec : utf8Decode (cbcDecrypt bd
            (pbkdf2HmacSha256 (utf8Encode pw.data) sb 100000 32) ivb cb) with
        | none => rw [hdec] at hcontr; exact absurd hcontr (by simp)
        | some cs => rw [hdec] at hcontr; exact absurd hcontr (by simp)
      · intro hor
        exfalso
        rcases hor with h0 | hmod | hup
        · have hcb : cb = [] := List.length_eq_zero.mp h0
          subst hcb
          rw [cbcDecrypt_nil, pkcs7Unpad_nil] at hunpad
          exact Option.noConfusion hunpad
        · exact absurd halign hmod
        · exact Option.noConfusion hup
  · rw [if_neg halign]
    constructor
    · intro _
      exact Or.inr (Or.inl halign)
    · intro _
      rfl

/-- C6: if any of the three base64 inputs (ciphertext, IV or salt) fails to
decode — a character outside the standard alphabet or incorrect padding —
`decrypt_sync` returns the `invalidEncoding` error kind; no later stage runs. -/
theorem decrypt_sync_invalidEncoding_of_bad_base64 (bd : List Nat → List Nat → List Nat)
    (ct pw iv salt : String)
    (h : b64_to_bytes ct = none ∨ b64_to_bytes iv = none ∨ b64_to_bytes salt = none) :
    decrypt_sync bd ct pw iv salt = .error .invalidEncoding := by
  unfold decrypt_sync decryptSyncWith
  rcases h with h | h | h
  · rw [h]
  · cases hct : b64_to_bytes ct with
    | none => rfl
    | some cb => simp only [h]
  · cases hct : b64_to_bytes ct with
    | none => rfl
    | some cb =>
      cases hiv : b64_to_bytes iv with
      | none => rfl
      | some ivb => simp only [h]

/-- C7: if all three base64 inputs decode but the IV is not exactly 16 bytes,
`decrypt_sync` returns the `invalidIVLength` error kind, for every password and
ciphertext. -/
theorem decrypt_sync_invalidIVLength_of_wrong_iv (bd : List Nat → List Nat → List Nat)
    (ct pw iv salt : String) (cb ivb sb : List Nat)
    (hct : b64_to_bytes ct = some cb) (hiv : b64_to_bytes iv = some ivb)
    (hsalt : b64_to_bytes salt = some sb) (hlen : ivb.length ≠ 16) :
    decrypt_sync bd ct pw iv salt = .error .invalidIVLength := by
  unfold decrypt_sync decryptSyncWith
  simp only [hct, hiv, hsalt]
  rw [if_neg hlen]

/-- C8: `decrypt_sync` is deterministic — two calls with identical arguments
return the same result, the same success text or the same error kind. -/
theorem decrypt_sync_deterministic (bd : List Nat → List Nat → List Nat)
    (ct₁ pw₁ iv₁ salt₁ ct₂ pw₂ iv₂ salt₂ : String)
    (h1 : ct₁ = ct₂) (h2 : pw₁ = pw₂) (h3 : iv₁ = iv₂) (h4 : salt₁ = salt₂) :
    decrypt_sync bd ct₁ pw₁ iv₁ salt₁ = decrypt_sync bd ct₂ pw₂ iv₂ salt₂ := by
  rw [h1, h2, h3, h4]

/-- C9: the `invalidKeyLength` branch of the cipher setup is unreachable: the
derived key always has exactly 32 bytes, so for every input `decrypt_sync`
never returns that error kind. -/
theorem decrypt_sync_invalidKeyLength_unreachable (bd : List Nat → List Nat → List Nat)
    (ct pw iv salt : String) :
    decrypt_sync bd ct pw iv salt ≠ .error .invalidKeyLength := by
  intro hcon
  cases hct : b64_to_bytes ct with
  | none =>
    unfold decrypt_sync decryptSyncWith at hcon
    rw [hct] at hcon
    exact absurd hcon (by simp)
  | some cb =>
    cases hiv : b64_to_bytes iv with
    | none =>
      unfold decrypt_sync decryptSyncWith at hcon
      simp only [hct, hiv] at hcon
      exact absurd hcon (by simp)
    | some ivb =>
      cases hsalt : b64_to_bytes salt with
      | none =>
        unfold decrypt_sync decryptSyncWith at hcon
        simp only [hct, hiv, hsalt] at hcon
        exact absurd hcon (by simp)
      | some sb =>
        unfold decrypt_sync decryptSyncWith at hcon
        simp only [hct, hiv, hsalt] at hcon
        by_cases hlen : ivb.length = 16
        · rw [if_pos hlen, if_pos ⟨pbkdf2HmacSha256_length _ _ _, hlen⟩] at hcon
          by_cases halign : cb.length % 16 = 0
          · rw [if_pos halign] at hcon
            cases hunpad : pkcs7Unpad (cbcDecrypt bd
                (pbkdf2HmacSha256 (utf8Encode pw.data) sb 100000 32) ivb cb) with
            | none => rw [hunpad] at hcon; exact absurd hcon (by simp)
            | some up =>
              rw [hunpad] at hcon
              cases hdec : utf8Decode (cbcDecrypt bd
                  (pbkdf2HmacSha256 (utf8Encode pw.data) sb 100000 32) ivb cb) with
              | none => rw [hdec] at hcon; exact absurd hcon (by simp)
              | some cs => rw [hdec] at hcon; exact absurd hcon (by simp)
          · rw [if_neg halign] at hcon
            exact absurd hcon (by simp)
        · rw [if_neg hlen] at hcon
          exact absurd hcon (by simp)

/-- C10: decoding failures are reported in argument order — an undecodable
ciphertext string yields `invalidEncoding` whatever the other arguments are,
and an undecodable IV string likewise yields `invalidEncoding` whatever the
salt is. -/
theorem decrypt_sync_decode_failure_order (bd : List Nat → List Nat → List Nat) (ct pw iv salt : String) :
    (b64_to_bytes ct = none → decrypt_sync bd ct pw iv salt = .error .invalidEncoding) ∧
    (b64_to_bytes iv = none → decrypt_sync bd ct pw iv salt = .error .invalidEncoding) := by
  constructor
  · intro h
    unfold decrypt_sync decryptSyncWith
    rw [h]
  · intro h
    unfold decrypt_sync decryptSyncWith
    cases hct : b64_to_bytes ct with
    | none => rfl
    | some cb => simp only [h]


/-- Witness for C3 at a concrete successful decryption. -/
theorem decryptSync_ok_length_eq_ciphertext_length_witness :
    ∃ cb, b64_to_bytes "EBAQEBAQEBAQEBAQEBAQEA==" = some cb ∧
      (utf8Encode (String.mk (List.replicate 16 (Char.ofNat 16))).data).length = cb.length ∧
      cb.length ≠ 0 ∧ cb.length % 16 = 0 :=
  decryptSync_ok_length_eq_ciphertext_length (fun _ b => b) (fun _ _ => List.replicate 32 0)
    (fun _ _ hb => hb) "EBAQEBAQEBAQEBAQEBAQEA==" "pw" "AAAAAAAAAAAAAAAAAAAAAA==" ""
    (String.mk (List.replicate 16 (Char.ofNat 16))) (by decide)

/-- Witness for C4 at concrete password and salt bytes. -/
theorem pbkdf2HmacSha256_deterministic_32_bytes_witness :
    (pbkdf2HmacSha256 [112, 119] [1, 2] 100000 32).length = 32 ∧
      pbkdf2HmacSha256 [112, 119] [1, 2] 100000 32
        = pbkdf2HmacSha256 [112, 119] [1, 2] 100000 32 :=
  pbkdf2HmacSha256_deterministic_32_bytes [112, 119] [1, 2] [112, 119] [1, 2] rfl rfl

/-- Witness for C5: the empty ciphertext decodes to zero bytes and yields
`decryptionError`. -/
theorem decrypt_sync_decryptionError_iff_witness :
    decrypt_sync (fun _ b => b) "" "pw" "AAAAAAAAAAAAAAAAAAAAAA==" ""
      = .error .decryptionError :=
  (decrypt_sync_decryptionError_iff (fun _ b => b) "" "pw" "AAAAAAAAAAAAAAAAAAAAAA==" ""
    [] (List.replicate 16 0) [] (by decide) (by decide) (by decide) (by decide)).mpr
    (Or.inl rfl)

/-- Witness for C6 at a ciphertext string with characters outside the base64
alphabet. -/
theorem decrypt_sync_invalidEncoding_of_bad_base64_witness :
    decrypt_sync (fun _ b => b) "!!!!" "pw" "AAAAAAAAAAAAAAAAAAAAAA==" ""
      = .error .invalidEncoding :=
  decrypt_sync_invalidEncoding_of_bad_base64 (fun _ b => b) "!!!!" "pw"
    "AAAAAAAAAAAAAAAAAAAAAA==" "" (Or.inl (by decide))

/-- Witness for C7 at an IV that decodes to 15 bytes. -/
theorem decrypt_sync_invalidIVLength_of_wrong_iv_witness :
    decrypt_sync (fun _ b => b) "" "pw" "AAAAAAAAAAAAAAAAAAAA" ""
      = .error .invalidIVLength :=
  decrypt_sync_invalidIVLength_of_wrong_iv (fun _ b => b) "" "pw" "AAAAAAAAAAAAAAAAAAAA" ""
    [] (List.replicate 15 0) [] (by decide) (by decide) (by decide) (by decide)

/-- Witness for C8 at concrete identical calls. -/
theorem decrypt_sync_deterministic_witness :
    decrypt_sync (fun _ b => b) "" "pw" "" "" = decrypt_sync (fun _ b => b) "" "pw" "" "" :=
  decrypt_sync_deterministic (fun _ b => b) "" "pw" "" "" "" "pw" "" "" rfl rfl rfl rfl

/-- Witness for C10 at inputs where every base64 string is malformed: the
ciphertext failure is the one reported. -/
theorem decrypt_sync_decode_failure_order_witness :
    decrypt_sync (fun _ b => b) "!" "pw" "@@@@" "****" = .error .invalidEncoding :=
  (decrypt_sync_decode_failure_order (fun _ b => b) "!" "pw" "@@@@" "****").1 (by decide)

/-- Witness for C9 at a concrete input: the result is not the key-length
error. -/
theorem decrypt_sync_invalidKeyLength_unreachable_witness :
    decrypt_sync (fun _ b => b) "" "pw" "AAAAAAAAAAAAAAAAAAAAAA==" ""
      ≠ .error .invalidKeyLength :=
  decrypt_sync_invalidKeyLength_unreachable (fun _ b => b) "" "pw"
    "AAAAAAAAAAAAAAAAAAAAAA==" ""
